import Mathlib

/-!
Verification development for the mavlink2rest bridge (`src/main.rs`).

The program keeps a global JSON tree `MESSAGES = {"mavlink": {}}` behind a
mutex.  An ingestion thread receives MAVLink messages, serializes each one to
JSON, stores it under `msgs["mavlink"][msg_type]` and embeds a
`message_information` block (arrival counter and smoothed frequency).  A
keepalive thread sends a heartbeat once per second.  HTTP handlers `root_page`
and `mavlink_page` read a clone of the store; `mavlink_page` resolves the URL
path with `serde_json`'s `Value::pointer`.

JSON values are embedded as the inductive `Json` below; numbers are modelled
as exact rationals (the program stores integers and `f64` frequencies; no
claim depends on binary floating-point rounding).  Recursive string and
serialization helpers are written with structural or fuel-bounded recursion so
that every definition evaluates by kernel reduction on concrete inputs.
-/

/-- A `serde_json::Value`: null, booleans, numbers, strings, arrays and
objects.  Objects are association lists; `serde_json`'s map type (a
`BTreeMap`) iterates keys in sorted order while this list keeps insertion
order — lookup results, key sets and key uniqueness agree, only iteration
order may differ. -/
inductive Json where
  | null : Json
  | bool : Bool → Json
  | num : ℚ → Json
  | str : String → Json
  | arr : List Json → Json
  | obj : List (String × Json) → Json

/-- Association-list lookup (`BTreeMap::get`). -/
def lookupA : List (String × Json) → String → Option Json
  | [], _ => none
  | (k, v) :: rest, key => if k = key then some v else lookupA rest key

/-- Association-list insert-or-replace (`BTreeMap::insert` keeps the key set
free of duplicates; here the first matching key is replaced, otherwise the
pair is appended). -/
def setA : List (String × Json) → String → Json → List (String × Json)
  | [], key, v => [(key, v)]
  | (k, w) :: rest, key, v =>
      if k = key then (k, v) :: rest else (k, w) :: setA rest key v

/-- The key list of an object. -/
def keysA (l : List (String × Json)) : List String := l.map (fun p => p.1)

/-- Read-indexing `value[key]` (`impl Index<&str> for Value`): member lookup
on objects, `Null` for a missing member or a non-object. -/
def Json.idx : Json → String → Json
  | .obj fields, key => (lookupA fields key).getD .null
  | _, _ => .null

/-- Write-indexing `value[key] = v` (`impl IndexMut<&str> for Value`): insert
or replace on objects, `Null` auto-vivifies into a one-entry object.
`serde_json` panics on the remaining variants; no reachable store state hits
them (the store root and its `"mavlink"` member stay objects), so they are
returned unchanged. -/
def Json.setK : Json → String → Json → Json
  | .obj fields, key, v => .obj (setA fields key v)
  | .null, key, v => .obj [(key, v)]
  | other, _, _ => other

/-- One scan step of `str::replace`: leftmost non-overlapping matches of
`pat` are replaced by `rep`.  Fuel-bounded so that it evaluates by kernel
reduction; `replaceStr` passes the input length, which always suffices.  An
empty pattern is never used by the program (its patterns are `"`, `~1`, `~0`). -/
def replaceAux (pat rep : List Char) : Nat → List Char → List Char
  | _, [] => []
  | 0, s => s
  | fuel + 1, c :: rest =>
      if !pat.isEmpty && pat.isPrefixOf (c :: rest) then
        rep ++ replaceAux pat rep fuel (List.drop (pat.length - 1) rest)
      else
        c :: replaceAux pat rep fuel rest

/-- `str::replace`. -/
def replaceStr (s pat rep : String) : String :=
  String.mk (replaceAux pat.data rep.data s.data.length s.data)

/-- `str::split('/')`: splitting an empty string yields one empty chunk. -/
def splitSlash : List Char → List (List Char)
  | [] => [[]]
  | c :: rest =>
      let r := splitSlash rest
      if c = '/' then [] :: r
      else
        match r with
        | [] => [[c]]
        | g :: gs => (c :: g) :: gs

/-- JSON-pointer token unescaping: `~1` → `/`, then `~0` → `~`. -/
def unescapeToken (t : List Char) : String :=
  replaceStr (replaceStr (String.mk t) "~1" "/") "~0" "~"

/-- `serde_json`'s `parse_index`: a pointer token indexes an array only if it
is a plain decimal numeral without a leading `+` and without a redundant
leading zero.  (`usize` overflow on astronomically long tokens is not
modelled; no claim involves one.) -/
def parseIndex (s : String) : Option Nat :=
  if "+".data.isPrefixOf s.data || ("0".data.isPrefixOf s.data && s.data.length != 1) then
    none
  else if !s.data.isEmpty && s.data.all (fun c => c.isDigit) then
    some (s.data.foldl (fun acc c => acc * 10 + (c.toNat - '0'.toNat)) 0)
  else
    none

/-- The token walk of `Value::pointer`: objects are entered by member name,
arrays by parsed index, anything else fails. -/
def pointerWalk : List String → Json → Option Json
  | [], v => some v
  | tok :: rest, .obj fields =>
      match lookupA fields tok with
      | some v => pointerWalk rest v
      | none => none
  | tok :: rest, .arr xs =>
      match parseIndex tok with
      | some i =>
          match xs.get? i with
          | some v => pointerWalk rest v
          | none => none
      | none => none
  | _ :: _, _ => none

/-- `Value::pointer`: the empty pointer returns the value itself, a pointer
not starting with `/` resolves to nothing, otherwise the slash-separated
tokens (after unescaping) are walked from the root. -/
def Json.pointer (j : Json) (p : String) : Option Json :=
  if p = "" then some j
  else if !("/".data.isPrefixOf p.data) then none
  else pointerWalk (((splitSlash p.data).drop 1).map unescapeToken) j

/-- Lower-case hexadecimal digit, as emitted by `serde_json`'s `\u00XX`
escapes. -/
def hexDigit (n : Nat) : Char :=
  Char.ofNat (if n < 10 then '0'.toNat + n else 'a'.toNat + (n - 10))

/-- `serde_json`'s string escaping: quote, backslash, the named control
escapes, and `\u00XX` for the remaining control characters. -/
def escapeChar (c : Char) : String :=
  if c = '"' then "\\\""
  else if c = '\\' then "\\\\"
  else if c = Char.ofNat 8 then "\\b"
  else if c = Char.ofNat 12 then "\\f"
  else if c = '\n' then "\\n"
  else if c = Char.ofNat 13 then "\\r"
  else if c = Char.ofNat 9 then "\\t"
  else if c.toNat < 32 then
    "\\u00" ++ String.mk [hexDigit (c.toNat / 16), hexDigit (c.toNat % 16)]
  else
    String.mk [c]

/-- A JSON string literal. -/
def renderString (s : String) : String :=
  "\"" ++ String.join (s.data.map escapeChar) ++ "\""

/-- Number formatting: integers print as in `serde_json`.  The program's only
non-integral numbers are `f64` frequencies, which `serde_json` prints in
decimal floating notation; no claim serializes one, so non-integral rationals
keep the exact `num/den` form. -/
def renderNum (q : ℚ) : String :=
  if q.den = 1 then toString q.num
  else toString q.num ++ "/" ++ toString q.den

mutual
/-- Compact serialization (`serde_json::to_string`, also `Value`'s `Display`
used by `.to_string()`). -/
def Json.render : Json → String
  | .null => "null"
  | .bool b => if b then "true" else "false"
  | .num q => renderNum q
  | .str s => renderString s
  | .arr xs => "[" ++ renderArr xs ++ "]"
  | .obj fs => "\x7b" ++ renderObj fs ++ "\x7d"
/-- Comma-separated array elements. -/
def renderArr : List Json → String
  | [] => ""
  | [x] => x.render
  | x :: y :: rest => x.render ++ "," ++ renderArr (y :: rest)
/-- Comma-separated `"key":value` members. -/
def renderObj : List (String × Json) → String
  | [] => ""
  | [(k, v)] => renderString k ++ ":" ++ v.render
  | (k, v) :: p :: rest =>
      renderString k ++ ":" ++ v.render ++ "," ++ renderObj (p :: rest)
end

/-- `n` spaces. -/
def indentStr (n : Nat) : String := String.mk (List.replicate n ' ')

mutual
/-- Pretty serialization (`serde_json::to_string_pretty`, two-space indent):
non-empty arrays and objects break onto indented lines, `: ` separates keys
from values, empty containers stay on one line.  The `Nat` is the
indentation of the container's children. -/
def Json.renderP : Nat → Json → String
  | _, .null => "null"
  | _, .bool b => if b then "true" else "false"
  | _, .num q => renderNum q
  | _, .str s => renderString s
  | _, .arr [] => "[]"
  | ind, .arr (x :: xs) =>
      "[\n" ++ renderPArr (ind + 2) (x :: xs) ++ "\n" ++ indentStr ind ++ "]"
  | _, .obj [] => "\x7b\x7d"
  | ind, .obj (p :: ps) =>
      "\x7b\n" ++ renderPObj (ind + 2) (p :: ps) ++ "\n" ++ indentStr ind ++ "\x7d"
/-- Indented array elements, one per line. -/
def renderPArr : Nat → List Json → String
  | _, [] => ""
  | ind, [x] => indentStr ind ++ Json.renderP ind x
  | ind, x :: y :: rest =>
      indentStr ind ++ Json.renderP ind x ++ ",\n" ++ renderPArr ind (y :: rest)
/-- Indented `"key": value` members, one per line. -/
def renderPObj : Nat → List (String × Json) → String
  | _, [] => ""
  | ind, [(k, v)] => indentStr ind ++ renderString k ++ ": " ++ Json.renderP ind v
  | ind, (k, v) :: p :: rest =>
      indentStr ind ++ renderString k ++ ": " ++ Json.renderP ind v ++ ",\n" ++
        renderPObj ind (p :: rest)
end

/-- `serde_json::to_string_pretty` of a value. -/
def Json.renderPretty (j : Json) : String := Json.renderP 0 j

/-- Modelled from the spec: the module `message_information` (file
`src/message_information.rs`, declared by `mod message_information;` but not
present under `src/`).  Per-type arrival statistics: "count of arrivals seen,
timestamp of previous arrival (optional — absent before the second arrival),
current estimated frequency in events/second (0.0 until at least two arrivals
have been observed)". -/
structure MessageInformation where
  counter : Nat
  frequency : ℚ
  last_time : Option ℚ

/-- Modelled from the spec: "created on first arrival of a type with
frequency undefined" — zero arrivals, frequency 0.0, no previous timestamp
(`MessageInformation::default()`). -/
def MessageInformation.default : MessageInformation :=
  { counter := 0, frequency := 0, last_time := none }

/-- Modelled from the spec (`MessageInformation::update`, §4.1): if the
previous timestamp is absent, record `now`, leave frequency at 0.0 and
increment the count; otherwise, with `elapsed = now - previous`, leave the
frequency unchanged when `elapsed ≤ 0`, else blend the instant rate
`1/elapsed` into the stored frequency.  The blend weight is the one forced by
the spec's testable property "the second `put()` (elapsed > 0) yields
frequency = 1/elapsed exactly (α on a single sample degenerates to the
instant rate since old estimate starts at 0)": a running average over the
instant-rate samples seen so far, the k-th sample entering with weight 1/k. -/
def MessageInformation.update (mi : MessageInformation) (now : ℚ) : MessageInformation :=
  match mi.last_time with
  | none => { mi with counter := mi.counter + 1, last_time := some now }
  | some prev =>
      let elapsed := now - prev
      if elapsed ≤ 0 then { mi with counter := mi.counter + 1, last_time := some now }
      else
        { counter := mi.counter + 1,
          frequency :=
            (mi.frequency * ((mi.counter : ℚ) - 1) + 1 / elapsed) / (mi.counter : ℚ),
          last_time := some now }

/-- Modelled from the spec: `serde_json::to_value` of a `MessageInformation`
exposes the arrival count and the frequency estimate (the block embedded as
`"message_information"`; the previous-arrival timestamp is loop-internal
state).  Both `root_page` and the spec's examples read only
`["message_information"]["frequency"]`. -/
def miToJson (mi : MessageInformation) : Json :=
  .obj [("counter", .num (mi.counter : ℚ)), ("frequency", .num mi.frequency)]

/-- The ingestion thread's private side table
`messages_information : HashMap<String, MessageInformation>`. -/
abbrev Infos := List (String × MessageInformation)

/-- `HashMap::get` on the side table. -/
def lookupMI : Infos → String → Option MessageInformation
  | [], _ => none
  | (k, v) :: rest, key => if k = key then some v else lookupMI rest key

/-- `HashMap` insert-or-replace on the side table. -/
def setMI : Infos → String → MessageInformation → Infos
  | [], key, v => [(key, v)]
  | (k, w) :: rest, key, v =>
      if k = key then (k, v) :: rest else (k, w) :: setMI rest key v

/-- `messages_information.entry(msg_type).or_insert(default()).update()`:
look up or create the per-type block, then run its update at `now`. -/
def updInfos (infos : Infos) (msg_type : String) (now : ℚ) : Infos :=
  setMI infos msg_type (((lookupMI infos msg_type).getD MessageInformation.default).update now)

/-- The block read back by `messages_information[&msg_type]` right after
`updInfos`: the freshly updated per-type state. -/
def miAfter (infos : Infos) (msg_type : String) (now : ℚ) : MessageInformation :=
  ((lookupMI infos msg_type).getD MessageInformation.default).update now

/-- `let msg_type = value["type"].to_string().replace("\"", "")`: the
serialized `type` member with every double quote removed ("null" when the
member is absent, since indexing then yields `Value::Null`). -/
def typeKey (value : Json) : String :=
  replaceStr (Json.render (value.idx "type")) "\"" ""

/-- `msgs["mavlink"][&msg_type] = value`: replace the whole per-type entry
with the fresh payload. -/
def storeSetPayload (store : Json) (msg_type : String) (value : Json) : Json :=
  store.setK "mavlink" ((store.idx "mavlink").setK msg_type value)

/-- `msgs["mavlink"][&msg_type]["message_information"] = info`: embed the
serialized frequency block into the stored entry. -/
def storeSetMI (store : Json) (msg_type : String) (info : Json) : Json :=
  store.setK "mavlink"
    ((store.idx "mavlink").setK msg_type
      (((store.idx "mavlink").idx msg_type).setK "message_information" info))

/-- One `Ok((_header, msg))` iteration of the ingestion loop (main.rs
89-106), performed while holding the store lock: serialize the message
(already a `Json` here), extract `msg_type`, store the payload, update the
private side table, and embed the updated block into the stored entry.
Returns the new store and the new side table. -/
def ingestStep (store : Json) (infos : Infos) (msg : Json) (now : ℚ) : Json × Infos :=
  let msg_type := typeKey msg
  let store1 := storeSetPayload store msg_type msg
  let infos1 := updInfos infos msg_type now
  let info := (lookupMI infos1 msg_type).getD MessageInformation.default
  (storeSetMI store1 msg_type (miToJson info), infos1)

/-- The initial store: `json!({"mavlink":{}})` (main.rs 15-20). -/
def MESSAGES : Json := .obj [("mavlink", .obj [])]

/-- `mavlink_page` (main.rs 174-196) on a store snapshot: resolve the URL
path with `Value::pointer`; answer `"No valid path"` when nothing is found,
otherwise the compact or pretty serialization of the sub-value according to
the parsed `pretty` query flag. -/
def mavlink_page (store : Json) (url_path : String) (pretty : Option Bool) : String :=
  match store.pointer url_path with
  | none => "No valid path"
  | some v => if pretty = some true then v.renderPretty else v.render

/-- The type-name keys of the store (`message["mavlink"].as_object()
.unwrap().keys()`); the handler's `unwrap` never fails because every
reachable store keeps `"mavlink"` an object. -/
def typeKeys (store : Json) : List String :=
  match store.idx "mavlink" with
  | .obj fields => keysA fields
  | _ => []

/-- `message["mavlink"][&key]["message_information"]["frequency"]
.as_f64().unwrap_or(0.0)`. -/
def freqOf (store : Json) (key : String) : ℚ :=
  match (((store.idx "mavlink").idx key).idx "message_information").idx "frequency" with
  | .num q => q
  | _ => 0

/-- Round the fraction `n / d` (with `d > 0`) half to even, as Rust's
`{:.2}` float formatting does on the frequencies (modelled over exact
rationals; the code's values are `f64`).  Written with integer floor
division on numerator and denominator so that it evaluates by kernel
reduction. -/
def roundHalfEven (n d : ℤ) : ℤ :=
  let f := Int.fdiv n d
  let r := n - f * d
  if 2 * r < d then f
  else if d < 2 * r then f + 1
  else if f % 2 = 0 then f else f + 1

/-- `format!("{:.2}", x)`: two decimal places, so round `x * 100 =
(num * 100) / den` half to even. -/
def fmt2 (q : ℚ) : String :=
  let n := roundHalfEven (q.num * 100) (q.den : ℤ)
  let sign := if n < 0 then "-" else ""
  let m := n.natAbs
  let d := m % 100
  sign ++ toString (m / 100) ++ "." ++ (if d < 10 then "0" else "") ++ toString d

/-- The `<li>` accumulation of `root_page` (main.rs 140-147): one list item
per stored type key, showing the type's frequency to two decimals. -/
def html_list_content (store : Json) : String :=
  (typeKeys store).foldl
    (fun acc key =>
      acc ++ " <li> <a href=\"mavlink/" ++ key ++ "\">mavlink/" ++ key ++
        "</a> (" ++ fmt2 (freqOf store key) ++ "Hz) </li>")
    ""

/-- `root_page` (main.rs 136-167) on a store snapshot.  The four strings are
the build-time constants `CARGO_PKG_NAME`, `VERGEN_SEMVER`,
`VERGEN_BUILD_DATE` and `CARGO_PKG_AUTHORS` interpolated into the HTML
header. -/
def root_page (pkg_name semver build_date authors : String) (store : Json) : String :=
  let html_list := "<ul> " ++ html_list_content store ++ " </ul>"
  pkg_name ++ " - " ++ semver ++ " - " ++ build_date ++ "<br>By: " ++ authors ++
    "<br>\n        Check the <a href=\"\\mavlink\">mavlink path</a> for the data<br>\n        You can also check nested paths: <a href=\"mavlink/HEARTBEAT/mavtype/type\">mavlink/HEARTBEAT/mavtype/type</a><br>\n        <br>\n        List of available paths:\n        " ++
    html_list ++ "\n        "

/-- One poll outcome of `vehicle.recv()`: a decoded message with its arrival
time, the transient `WouldBlock` condition, or any other receive error. -/
inductive RecvResult where
  | ok : Json → ℚ → RecvResult
  | wouldBlock : RecvResult
  | recvErr : RecvResult

/-- The ingestion loop (main.rs 86-122) over a finite schedule of poll
outcomes: `Ok` runs `ingestStep`, `WouldBlock` sleeps one second and
retries leaving all state untouched, any other error breaks the loop.  The
`Bool` records whether the loop has stopped. -/
def runLoop : List RecvResult → Json → Infos → Json × Infos × Bool
  | [], store, infos => (store, infos, false)
  | .ok msg now :: rest, store, infos =>
      let si := ingestStep store infos msg now
      runLoop rest si.1 si.2
  | .wouldBlock :: rest, store, infos => runLoop rest store infos
  | .recvErr :: _, store, infos => (store, infos, true)

/-- Observable events of the keepalive loop: a send attempt with its
outcome, the one-second sleep, and the failure report. -/
inductive KAEvent where
  | send : Bool → KAEvent
  | sleep : KAEvent
  | logFail : KAEvent
deriving DecidableEq

/-- The keepalive loop (main.rs 66-76) over a finite schedule of send
outcomes: each iteration sends one heartbeat, then sleeps one second on
success or prints `"Failed to send heartbeat"` on failure, and loops
regardless. -/
def keepaliveRun : List Bool → List KAEvent
  | [] => []
  | ok :: rest =>
      .send ok :: (if ok then KAEvent.sleep else KAEvent.logFail) :: keepaliveRun rest

/-- The send outcomes of a keepalive event trace, in order. -/
def sendResults : List KAEvent → List Bool
  | [] => []
  | .send b :: rest => b :: sendResults rest
  | _ :: rest => sendResults rest

/-- Whether a `sleep` separates each failed send from the next send attempt
(no intervening send): scanning helper. -/
def sleptBeforeSend : List KAEvent → Bool
  | [] => true
  | .sleep :: _ => true
  | .send _ :: _ => false
  | .logFail :: rest => sleptBeforeSend rest

/-- The claim's retry discipline, stated from the spec's words: after every
failed send, the next send attempt happens only after a sleep (the next tick
of the one-second cadence). -/
def sleepSeparatesRetries : List KAEvent → Bool
  | [] => true
  | .send false :: rest => sleptBeforeSend rest && sleepSeparatesRetries rest
  | _ :: rest => sleepSeparatesRetries rest

/-- The stored entry for one type name: member of the `"mavlink"` object. -/
def entryAt (store : Json) (msg_type : String) : Option Json :=
  match store.idx "mavlink" with
  | .obj fields => lookupA fields msg_type
  | _ => none

/-- The data `root_page` actually renders per type: the key together with its
two-decimal frequency. -/
def indexData (store : Json) : List (String × String) :=
  (typeKeys store).map (fun k => (k, fmt2 (freqOf store k)))

/-- Progress of the ingestion thread through one `Ok` arm's critical section
(the `MutexGuard` is held from `lock()` at main.rs 91 to the end of the arm):
`idle` — lock free; `cs0` — lock taken for a message, nothing written yet;
`cs1` — the payload write (line 94) done, the `message_information` write
(lines 104-105) still pending; `cs2` — both writes done, lock still held.
MAVLink messages serialize to JSON objects (the enum is internally tagged),
so the pending message carries its member list. -/
inductive Phase where
  | idle : Phase
  | cs0 : List (String × Json) → ℚ → Phase
  | cs1 : List (String × Json) → ℚ → Phase
  | cs2 : Phase

/-- Shared-memory state for the concurrency analysis: the locked store, the
writer's private side table, the writer's position in its critical section,
and a ghost history of the completed puts `(type, payload, block)`. -/
structure Sys where
  store : Json
  infos : Infos
  phase : Phase
  history : List (String × Json × MessageInformation)

/-- Boot state: `MESSAGES` fresh, no side-table entries, lock free. -/
def initSys : Sys :=
  { store := MESSAGES, infos := [], phase := .idle, history := [] }

/-- Interleaved small steps.  The writer follows the program order of the
`Ok` arm: acquire the lock, write the payload, write the frequency block (and
update the side table), release.  Readers (`root_page`, `mavlink_page`) clone
the store only while holding the same lock, so a read observes exactly the
states with `phase = idle`; reads change nothing, hence need no step. -/
inductive Step : Sys → Sys → Prop
  | acquire (s : Sys) (mfs : List (String × Json)) (t : ℚ) (h : s.phase = .idle) :
      Step s { s with phase := .cs0 mfs t }
  | writePayload (s : Sys) (mfs : List (String × Json)) (t : ℚ)
      (h : s.phase = .cs0 mfs t) :
      Step s { s with
               phase := .cs1 mfs t,
               store := storeSetPayload s.store (typeKey (.obj mfs)) (.obj mfs) }
  | writeMI (s : Sys) (mfs : List (String × Json)) (t : ℚ)
      (h : s.phase = .cs1 mfs t) :
      Step s { store := storeSetMI s.store (typeKey (.obj mfs))
                          (miToJson (miAfter s.infos (typeKey (.obj mfs)) t)),
               infos := updInfos s.infos (typeKey (.obj mfs)) t,
               phase := .cs2,
               history := s.history ++
                 [(typeKey (.obj mfs), .obj mfs, miAfter s.infos (typeKey (.obj mfs)) t)] }
  | release (s : Sys) (h : s.phase = .cs2) :
      Step s { s with phase := .idle }

/-- States reachable from boot under the interleaving semantics. -/
inductive Reach : Sys → Prop
  | init : Reach initSys
  | step (s s2 : Sys) : Reach s → Step s s2 → Reach s2

/-- The last completed put for a type name in the ghost history. -/
def lastPutFor (hist : List (String × Json × MessageInformation)) (msg_type : String) :
    Option (Json × MessageInformation) :=
  match hist with
  | [] => none
  | (k, p, mi) :: rest =>
      match lastPutFor rest msg_type with
      | some r => some r
      | none => if k = msg_type then some (p, mi) else none

/-- A stored entry is exactly some completed put's payload with that same
put's frequency block embedded. -/
def entryGood (hist : List (String × Json × MessageInformation))
    (msg_type : String) (e : Json) : Prop :=
  ∃ p mi, lastPutFor hist msg_type = some (p, mi) ∧
    e = p.setK "message_information" (miToJson mi)

/-- Store/history agreement outside a critical section: the root is an
object, `"mavlink"` is an object, and every per-type entry is the payload of
the last completed put for that type with that put's frequency block. -/
def storeMatches (store : Json) (hist : List (String × Json × MessageInformation)) : Prop :=
  ∃ sfs mfs, store = .obj sfs ∧ lookupA sfs "mavlink" = some (.obj mfs) ∧
    ∀ msg_type e, lookupA mfs msg_type = some e → entryGood hist msg_type e

/-- Store/history agreement between the two writes: the pending type's entry
is the bare payload (its frequency block not yet embedded), all other types'
entries still agree with the history. -/
def midMatches (store : Json) (hist : List (String × Json × MessageInformation))
    (mfs0 : List (String × Json)) : Prop :=
  ∃ sfs mfs, store = .obj sfs ∧ lookupA sfs "mavlink" = some (.obj mfs) ∧
    lookupA mfs (typeKey (.obj mfs0)) = some (.obj mfs0) ∧
    ∀ msg_type e, msg_type ≠ typeKey (.obj mfs0) → lookupA mfs msg_type = some e →
      entryGood hist msg_type e

/-- The inductive invariant: outside the window between the two writes the
store agrees with the completed-put history; inside it only the pending
type's entry is provisional — and the lock is held there, so no read sees
it. -/
def SysInv (s : Sys) : Prop :=
  match s.phase with
  | .idle => storeMatches s.store s.history
  | .cs0 _ _ => storeMatches s.store s.history
  | .cs1 mfs _ => midMatches s.store s.history mfs
  | .cs2 => storeMatches s.store s.history

/-- Store shape reached from boot: an object whose `"mavlink"` member is an
object. -/
def storeWF (store : Json) : Prop :=
  ∃ sfs mfs, store = Json.obj sfs ∧ lookupA sfs "mavlink" = some (Json.obj mfs)

/-- A concrete serialized heartbeat payload, used to exercise the
concurrency model. -/
def witMsg : List (String × Json) :=
  [("type", Json.str "HEARTBEAT"), ("custom_mode", Json.num 0)]

/-- The concurrency model after `acquire` on the boot state. -/
def witSys1 : Sys := { initSys with phase := .cs0 witMsg 0 }

/-- … after the payload write. -/
def witSys2 : Sys :=
  { witSys1 with
    phase := .cs1 witMsg 0,
    store := storeSetPayload witSys1.store (typeKey (.obj witMsg)) (.obj witMsg) }

/-- … after the frequency-block write. -/
def witSys3 : Sys :=
  { store := storeSetMI witSys2.store (typeKey (.obj witMsg))
               (miToJson (miAfter witSys2.infos (typeKey (.obj witMsg)) 0)),
    infos := updInfos witSys2.infos (typeKey (.obj witMsg)) 0,
    phase := .cs2,
    history := witSys2.history ++
      [(typeKey (.obj witMsg), .obj witMsg, miAfter witSys2.infos (typeKey (.obj witMsg)) 0)] }

/-- … after `release`: a readable state holding one completed put. -/
def witSys4 : Sys := { witSys3 with phase := .idle }

/-- Store holding one `HEARTBEAT` entry with payload member `a`, no
frequency block. -/
def c8store1 : Json :=
  .obj [("mavlink", .obj [("HEARTBEAT", .obj [("a", Json.num 1)])])]

/-- Same type key and frequency as `c8store1`, different payload member. -/
def c8store2 : Json :=
  .obj [("mavlink", .obj [("HEARTBEAT", .obj [("b", Json.num 2)])])]

/-- The store of the spec's path-resolution example:
`{"mavlink": {"HEARTBEAT": {"mavtype": {"type": 2}}}}`. -/
def exampleStore : Json :=
  .obj [("mavlink", .obj [("HEARTBEAT", .obj [("mavtype", .obj [("type", Json.num 2)])])])]

theorem lookupA_setA_self (l : List (String × Json)) (k : String) (v : Json) :
    lookupA (setA l k v) k = some v := by
  induction l with
  | nil => simp [setA, lookupA]
  | cons p rest ih =>
      obtain ⟨k2, w⟩ := p
      by_cases h : k2 = k
      · simp [setA, h, lookupA]
      · simp [setA, h, lookupA, ih]

theorem lookupA_setA_ne (l : List (String × Json)) (k k2 : String) (v : Json)
    (h : k2 ≠ k) : lookupA (setA l k v) k2 = lookupA l k2 := by
  have hne : ¬ k = k2 := fun hh => h hh.symm
  induction l with
  | nil => simp [setA, lookupA, hne]
  | cons p rest ih =>
      obtain ⟨k3, w⟩ := p
      by_cases h3 : k3 = k
      · subst h3
        simp [setA, lookupA, hne]
      · simp [setA, h3, lookupA, ih]

theorem setA_setA (l : List (String × Json)) (k : String) (v w : Json) :
    setA (setA l k v) k w = setA l k w := by
  induction l with
  | nil => simp [setA]
  | cons p rest ih =>
      obtain ⟨k2, u⟩ := p
      by_cases h : k2 = k
      · simp [setA, h]
      · simp [setA, h, ih]

theorem keysA_setA (l : List (String × Json)) (k : String) (v : Json) :
    keysA (setA l k v) = if k ∈ keysA l then keysA l else keysA l ++ [k] := by
  induction l with
  | nil => simp [setA, keysA]
  | cons p rest ih =>
      obtain ⟨k2, w⟩ := p
      by_cases h : k2 = k
      · simp [setA, h, keysA]
      · have hne : ¬ k = k2 := fun hh => h hh.symm
        simp only [setA, if_neg h, keysA, List.map_cons, List.mem_cons]
        rw [keysA] at ih
        rw [keysA] at ih
        by_cases hk : k ∈ keysA rest
        · rw [keysA] at hk
          simp [ih, hk, hne, keysA]
        · rw [keysA] at hk
          simp [ih, hk, hne, keysA]

theorem keysA_setA_nodup (l : List (String × Json)) (k : String) (v : Json)
    (h : (keysA l).Nodup) : (keysA (setA l k v)).Nodup := by
  rw [keysA_setA]
  by_cases hk : k ∈ keysA l
  · simp [hk, h]
  · rw [if_neg hk, List.nodup_append]
    refine ⟨h, List.nodup_singleton k, ?_⟩
    intro a ha hae
    simp only [List.mem_singleton] at hae
    exact hk (hae ▸ ha)

theorem lookupMI_setMI_self (l : Infos) (k : String) (v : MessageInformation) :
    lookupMI (setMI l k v) k = some v := by
  induction l with
  | nil => simp [setMI, lookupMI]
  | cons p rest ih =>
      obtain ⟨k2, w⟩ := p
      by_cases h : k2 = k
      · simp [setMI, h, lookupMI]
      · simp [setMI, h, lookupMI, ih]

theorem lookupMI_updInfos (infos : Infos) (msg_type : String) (now : ℚ) :
    lookupMI (updInfos infos msg_type now) msg_type = some (miAfter infos msg_type now) := by
  rw [updInfos, miAfter, lookupMI_setMI_self]

theorem idx_setK_obj (fs : List (String × Json)) (k : String) (v : Json) :
    ((Json.obj fs).setK k v).idx k = v := by
  simp [Json.setK, Json.idx, lookupA_setA_self]

/-- Normal form of one ingestion iteration on a well-shaped store. -/
theorem ingestStep_obj (sfs mfs : List (String × Json)) (infos : Infos)
    (msg : Json) (now : ℚ)
    (hm : lookupA sfs "mavlink" = some (Json.obj mfs)) :
    ingestStep (Json.obj sfs) infos msg now =
      (Json.obj (setA sfs "mavlink" (Json.obj (setA mfs (typeKey msg)
          (msg.setK "message_information"
            (miToJson (miAfter infos (typeKey msg) now)))))),
       updInfos infos (typeKey msg) now) := by
  rw [ingestStep]
  simp only [storeSetPayload, storeSetMI, Json.idx, hm, Option.getD_some, Json.setK,
    lookupA_setA_self, setA_setA, lookupMI_updInfos]

/-- C1: last-write-wins per type — storing payload `P1` and then payload
`P2` for the same type name leaves exactly `P2`'s members plus the embedded
`message_information` block as that type's entry (never `P1`'s members,
never a merge), and the type keys stay free of duplicates, so at most one
entry exists per type name. -/
theorem c1_last_write_wins
    (sfs mfs p1fs p2fs : List (String × Json)) (infos : Infos)
    (msg_type : String) (t1 t2 : ℚ)
    (hm : lookupA sfs "mavlink" = some (Json.obj mfs))
    (h1 : typeKey (Json.obj p1fs) = msg_type)
    (h2 : typeKey (Json.obj p2fs) = msg_type) :
    entryAt (ingestStep (ingestStep (Json.obj sfs) infos (Json.obj p1fs) t1).1
        (ingestStep (Json.obj sfs) infos (Json.obj p1fs) t1).2 (Json.obj p2fs) t2).1
        msg_type =
      some ((Json.obj p2fs).setK "message_information"
        (miToJson (miAfter (updInfos infos msg_type t1) msg_type t2))) ∧
    ((typeKeys (Json.obj sfs)).Nodup →
      (typeKeys (ingestStep (ingestStep (Json.obj sfs) infos (Json.obj p1fs) t1).1
          (ingestStep (Json.obj sfs) infos (Json.obj p1fs) t1).2 (Json.obj p2fs)
          t2).1).Nodup) := by
  have e1 := ingestStep_obj sfs mfs infos (Json.obj p1fs) t1 hm
  rw [h1] at e1
  have hm2 := lookupA_setA_self sfs "mavlink"
    (Json.obj (setA mfs msg_type ((Json.obj p1fs).setK "message_information"
      (miToJson (miAfter infos msg_type t1)))))
  have e2 := ingestStep_obj _ _ (updInfos infos msg_type t1) (Json.obj p2fs) t2 hm2
  rw [h2] at e2
  rw [e1]
  dsimp only
  rw [e2]
  dsimp only
  constructor
  · simp [entryAt, Json.idx, lookupA_setA_self]
  · intro hnd
    have hnd2 : (keysA mfs).Nodup := by
      simpa [typeKeys, Json.idx, hm] using hnd
    simp only [typeKeys, Json.idx, lookupA_setA_self, Option.getD_some]
    rw [setA_setA]
    exact keysA_setA_nodup _ _ _ hnd2

theorem c1_last_write_wins_witness :
    entryAt (ingestStep
        (ingestStep (Json.obj [("mavlink", Json.obj [])]) []
          (Json.obj [("type", Json.str "HEARTBEAT"), ("a", Json.num 1)]) 0).1
        (ingestStep (Json.obj [("mavlink", Json.obj [])]) []
          (Json.obj [("type", Json.str "HEARTBEAT"), ("a", Json.num 1)]) 0).2
        (Json.obj [("type", Json.str "HEARTBEAT"), ("b", Json.num 2)]) 1).1
        "HEARTBEAT" =
      some ((Json.obj [("type", Json.str "HEARTBEAT"), ("b", Json.num 2)]).setK
        "message_information"
        (miToJson (miAfter (updInfos [] "HEARTBEAT" 0) "HEARTBEAT" 1))) ∧
    (typeKeys (ingestStep
        (ingestStep (Json.obj [("mavlink", Json.obj [])]) []
          (Json.obj [("type", Json.str "HEARTBEAT"), ("a", Json.num 1)]) 0).1
        (ingestStep (Json.obj [("mavlink", Json.obj [])]) []
          (Json.obj [("type", Json.str "HEARTBEAT"), ("a", Json.num 1)]) 0).2
        (Json.obj [("type", Json.str "HEARTBEAT"), ("b", Json.num 2)]) 1).1).Nodup :=
  ⟨(c1_last_write_wins [("mavlink", Json.obj [])] []
      [("type", Json.str "HEARTBEAT"), ("a", Json.num 1)]
      [("type", Json.str "HEARTBEAT"), ("b", Json.num 2)] [] "HEARTBEAT" 0 1
      rfl rfl rfl).1,
   (c1_last_write_wins [("mavlink", Json.obj [])] []
      [("type", Json.str "HEARTBEAT"), ("a", Json.num 1)]
      [("type", Json.str "HEARTBEAT"), ("b", Json.num 2)] [] "HEARTBEAT" 0 1
      rfl rfl rfl).2 (by simp [typeKeys, Json.idx, lookupA, keysA])⟩

/-- C2: path-resolution totality — for every store snapshot and every query
path, `mavlink_page` either returns the serialization (compact or pretty per
the flag) of the sub-value that `Value::pointer` reaches, or the fixed
`"No valid path"` answer exactly when the pointer resolves to nothing; on
the spec's example store, `/mavlink/HEARTBEAT/mavtype/type` resolves to `2`
and `/mavlink/UNKNOWN` answers not-found. -/
theorem c2_path_resolution_totality :
    (∀ store path pretty,
      (store.pointer path = none ∧ mavlink_page store path pretty = "No valid path") ∨
      (∃ v, store.pointer path = some v ∧
        mavlink_page store path pretty =
          (if pretty = some true then v.renderPretty else v.render))) ∧
    exampleStore.pointer "/mavlink/HEARTBEAT/mavtype/type" = some (Json.num 2) ∧
    mavlink_page exampleStore "/mavlink/HEARTBEAT/mavtype/type" none = "2" ∧
    exampleStore.pointer "/mavlink/UNKNOWN" = none ∧
    mavlink_page exampleStore "/mavlink/UNKNOWN" none = "No valid path" := by
  refine ⟨?_, rfl, rfl, rfl, rfl⟩
  intro store path pretty
  cases h : store.pointer path with
  | none => exact Or.inl ⟨rfl, by simp [mavlink_page, h]⟩
  | some v => exact Or.inr ⟨v, rfl, by simp [mavlink_page, h]⟩

/-- C10: implicit type-key derivation — each received message is stored
under the key obtained by serializing its `type` member and stripping every
double quote; a message without a `type` member serializes that index to
`null`, so it is stored under the literal key `"null"` instead of being
rejected. -/
theorem c10_type_key_derivation
    (sfs mfs pfs : List (String × Json)) (infos : Infos) (now : ℚ)
    (hm : lookupA sfs "mavlink" = some (Json.obj mfs)) :
    entryAt (ingestStep (Json.obj sfs) infos (Json.obj pfs) now).1
        (replaceStr (Json.render ((Json.obj pfs).idx "type")) "\"" "") =
      some ((Json.obj pfs).setK "message_information"
        (miToJson (miAfter infos (typeKey (Json.obj pfs)) now))) ∧
    (lookupA pfs "type" = none →
      entryAt (ingestStep (Json.obj sfs) infos (Json.obj pfs) now).1 "null" =
        some ((Json.obj pfs).setK "message_information"
          (miToJson (miAfter infos "null" now)))) := by
  have e1 := ingestStep_obj sfs mfs infos (Json.obj pfs) now hm
  constructor
  · rw [e1]
    dsimp only
    have hkey : replaceStr (Json.render ((Json.obj pfs).idx "type")) "\"" "" =
        typeKey (Json.obj pfs) := rfl
    rw [hkey]
    simp [entryAt, Json.idx, lookupA_setA_self]
  · intro hnone
    have hkey : typeKey (Json.obj pfs) = "null" := by
      rw [typeKey]
      simp only [Json.idx, hnone, Option.getD_none]
      rfl
    rw [e1, hkey]
    dsimp only
    simp [entryAt, Json.idx, lookupA_setA_self]

theorem c10_type_key_derivation_witness :
    entryAt (ingestStep (Json.obj [("mavlink", Json.obj [])]) []
        (Json.obj [("a", Json.num 1)]) 0).1
        (replaceStr (Json.render ((Json.obj [("a", Json.num 1)]).idx "type")) "\"" "") =
      some ((Json.obj [("a", Json.num 1)]).setK "message_information"
        (miToJson (miAfter [] (typeKey (Json.obj [("a", Json.num 1)])) 0))) ∧
    entryAt (ingestStep (Json.obj [("mavlink", Json.obj [])]) []
        (Json.obj [("a", Json.num 1)]) 0).1 "null" =
      some ((Json.obj [("a", Json.num 1)]).setK "message_information"
        (miToJson (miAfter [] "null" 0))) :=
  ⟨(c10_type_key_derivation [("mavlink", Json.obj [])] [] [("a", Json.num 1)] [] 0 rfl).1,
   (c10_type_key_derivation [("mavlink", Json.obj [])] [] [("a", Json.num 1)] [] 0 rfl).2 rfl⟩

theorem miAfter_fresh (infos : Infos) (msg_type : String) (t1 : ℚ)
    (hfresh : lookupMI infos msg_type = none) :
    miAfter infos msg_type t1 =
      { counter := 1, frequency := 0, last_time := some t1 } := by
  rw [miAfter, hfresh]
  rfl

theorem miAfter_second (infos : Infos) (msg_type : String) (t1 t2 : ℚ)
    (hfresh : lookupMI infos msg_type = none) (ht : t1 < t2) :
    miAfter (updInfos infos msg_type t1) msg_type t2 =
      { counter := 2, frequency := 1 / (t2 - t1), last_time := some t2 } := by
  rw [miAfter, lookupMI_updInfos, Option.getD_some, miAfter_fresh infos msg_type t1 hfresh]
  have hpos : ¬ (t2 - t1 ≤ 0) := not_le.mpr (sub_pos.mpr ht)
  simp only [MessageInformation.update, hpos, if_false]
  norm_num

/-- C4: frequency initialization (spec-modelled tracker) — after the first
put of a fresh type the exposed `frequency` value is exactly `0`, and after
the second put, with elapsed time `t2 - t1 > 0`, it is exactly
`1 / (t2 - t1)`: the smoothing blend applied to the initial estimate `0`
degenerates to the instant rate. -/
theorem c4_frequency_init
    (sfs mfs m1fs m2fs : List (String × Json)) (infos : Infos)
    (msg_type : String) (t1 t2 : ℚ)
    (hm : lookupA sfs "mavlink" = some (Json.obj mfs))
    (h1 : typeKey (Json.obj m1fs) = msg_type)
    (h2 : typeKey (Json.obj m2fs) = msg_type)
    (hfresh : lookupMI infos msg_type = none)
    (ht : t1 < t2) :
    ((((ingestStep (Json.obj sfs) infos (Json.obj m1fs) t1).1.idx "mavlink").idx
        msg_type).idx "message_information").idx "frequency" = Json.num 0 ∧
    ((((ingestStep (ingestStep (Json.obj sfs) infos (Json.obj m1fs) t1).1
          (ingestStep (Json.obj sfs) infos (Json.obj m1fs) t1).2 (Json.obj m2fs)
          t2).1.idx "mavlink").idx msg_type).idx "message_information").idx
        "frequency" = Json.num (1 / (t2 - t1)) := by
  have e1 := ingestStep_obj sfs mfs infos (Json.obj m1fs) t1 hm
  rw [h1] at e1
  have hm2 := lookupA_setA_self sfs "mavlink"
    (Json.obj (setA mfs msg_type ((Json.obj m1fs).setK "message_information"
      (miToJson (miAfter infos msg_type t1)))))
  have e2 := ingestStep_obj _ _ (updInfos infos msg_type t1) (Json.obj m2fs) t2 hm2
  rw [h2] at e2
  constructor
  · rw [e1]
    dsimp only
    rw [miAfter_fresh infos msg_type t1 hfresh]
    simp [Json.idx, lookupA_setA_self, Json.setK, miToJson, lookupA]
  · rw [e1]
    dsimp only
    rw [e2]
    dsimp only
    rw [miAfter_second infos msg_type t1 t2 hfresh ht]
    simp [Json.idx, lookupA_setA_self, Json.setK, miToJson, lookupA]

theorem c4_frequency_init_witness :
    (0 : ℚ) < 1 ∧
    ((((ingestStep (Json.obj [("mavlink", Json.obj [])]) []
          (Json.obj [("type", Json.str "GPS_RAW_INT")]) 0).1.idx "mavlink").idx
        "GPS_RAW_INT").idx "message_information").idx "frequency" = Json.num 0 ∧
    ((((ingestStep (ingestStep (Json.obj [("mavlink", Json.obj [])]) []
          (Json.obj [("type", Json.str "GPS_RAW_INT")]) 0).1
          (ingestStep (Json.obj [("mavlink", Json.obj [])]) []
            (Json.obj [("type", Json.str "GPS_RAW_INT")]) 0).2
          (Json.obj [("type", Json.str "GPS_RAW_INT")]) 1).1.idx "mavlink").idx
        "GPS_RAW_INT").idx "message_information").idx "frequency" =
      Json.num (1 / ((1 : ℚ) - 0)) :=
  ⟨by decide,
   (c4_frequency_init [("mavlink", Json.obj [])] [] [("type", Json.str "GPS_RAW_INT")]
      [("type", Json.str "GPS_RAW_INT")] [] "GPS_RAW_INT" 0 1 rfl rfl rfl rfl
      (by decide)).1,
   (c4_frequency_init [("mavlink", Json.obj [])] [] [("type", Json.str "GPS_RAW_INT")]
      [("type", Json.str "GPS_RAW_INT")] [] "GPS_RAW_INT" 0 1 rfl rfl rfl rfl
      (by decide)).2⟩

/-- C5: idle tolerance — any number of consecutive `WouldBlock` polls leaves
the ingestion loop's entire state (store, side table, running flag) exactly
as if they had not happened, for every continuation; in particular a
successful receive right after them updates the store normally. -/
theorem c5_idle_tolerance :
    (∀ n rest store infos,
      runLoop (List.replicate n RecvResult.wouldBlock ++ rest) store infos =
        runLoop rest store infos) ∧
    (∀ n msg now rest store infos,
      runLoop (List.replicate n RecvResult.wouldBlock ++ RecvResult.ok msg now :: rest)
          store infos =
        runLoop rest (ingestStep store infos msg now).1 (ingestStep store infos msg now).2) := by
  have key : ∀ n rest store infos,
      runLoop (List.replicate n RecvResult.wouldBlock ++ rest) store infos =
        runLoop rest store infos := by
    intro n
    induction n with
    | zero => intro rest store infos; rfl
    | succ n ih =>
        intro rest store infos
        rw [List.replicate_succ, List.cons_append, runLoop, ih]
  exact ⟨key, fun n msg now rest store infos => by rw [key, runLoop]⟩

/-- C6: terminal halt freezes the store — once a non-`WouldBlock` receive
error occurs, the loop result ignores every later poll outcome, the loop is
flagged stopped, and `mavlink_page` serves the frozen store identically
forever after. -/
theorem c6_terminal_halt :
    ∀ pre rest store infos,
      runLoop (pre ++ RecvResult.recvErr :: rest) store infos =
        runLoop (pre ++ [RecvResult.recvErr]) store infos ∧
      (runLoop (pre ++ [RecvResult.recvErr]) store infos).2.2 = true ∧
      (∀ path pretty,
        mavlink_page (runLoop (pre ++ RecvResult.recvErr :: rest) store infos).1
            path pretty =
          mavlink_page (runLoop (pre ++ [RecvResult.recvErr]) store infos).1
            path pretty) := by
  intro pre
  induction pre with
  | nil =>
      intro rest store infos
      exact ⟨rfl, rfl, fun path pretty => rfl⟩
  | cons r pre ih =>
      intro rest store infos
      cases r with
      | ok msg now =>
          simpa [runLoop] using
            ih rest (ingestStep store infos msg now).1 (ingestStep store infos msg now).2
      | wouldBlock => simpa [runLoop] using ih rest store infos
      | recvErr => exact ⟨rfl, rfl, fun path pretty => rfl⟩

theorem keepaliveRun_append (a b : List Bool) :
    keepaliveRun (a ++ b) = keepaliveRun a ++ keepaliveRun b := by
  induction a with
  | nil => rfl
  | cons ok rest ih => rw [List.cons_append, keepaliveRun, keepaliveRun, ih]; rfl

/-- C7 counterexample: with send outcomes `[failure, success]` the keepalive
loop's event trace retries the failed heartbeat immediately — no sleep (no
tick of the one-second cadence) separates the failed send from the next send
attempt, contradicting "retried on the next tick of the fixed 1-second
cadence". -/
theorem c7_keepalive_counterexample :
    sleepSeparatesRetries (keepaliveRun [false, true]) = false := rfl

/-- C7 (amended): keepalive resilience — every send outcome in the schedule
is attempted in order (no send failure ever terminates the loop), and a
failed send is reported and retried immediately on the next loop iteration:
the one-second sleep happens only after successful sends. -/
theorem c7_keepalive_resilience
    : (∀ outcomes, sendResults (keepaliveRun outcomes) = outcomes) ∧
      (∀ pre post,
        keepaliveRun (pre ++ false :: post) =
          keepaliveRun pre ++ KAEvent.send false :: KAEvent.logFail :: keepaliveRun post) := by
  constructor
  · intro outcomes
    induction outcomes with
    | nil => rfl
    | cons ok rest ih =>
        cases ok <;> simp [keepaliveRun, sendResults, ih]
  · intro pre post
    rw [keepaliveRun_append]
    rfl

theorem storeWF_ingest (store : Json) (infos : Infos) (msg : Json) (now : ℚ)
    (h : storeWF store) : storeWF (ingestStep store infos msg now).1 := by
  obtain ⟨sfs, mfs, hst, hm⟩ := h
  subst hst
  rw [ingestStep_obj sfs mfs infos msg now hm]
  exact ⟨_, _, rfl, lookupA_setA_self _ _ _⟩

theorem typeKeys_ingest (store : Json) (infos : Infos) (msg : Json) (now : ℚ)
    (h : storeWF store) :
    typeKeys (ingestStep store infos msg now).1 = typeKeys store ∨
    typeKeys (ingestStep store infos msg now).1 = typeKeys store ++ [typeKey msg] := by
  obtain ⟨sfs, mfs, hst, hm⟩ := h
  subst hst
  rw [ingestStep_obj sfs mfs infos msg now hm]
  simp only [typeKeys, Json.idx, hm, lookupA_setA_self, Option.getD_some]
  rw [keysA_setA]
  by_cases hk : typeKey msg ∈ keysA mfs
  · exact Or.inl (by rw [if_pos hk])
  · exact Or.inr (by rw [if_neg hk])

theorem storeWF_runLoop (results : List RecvResult) (store : Json) (infos : Infos)
    (h : storeWF store) : storeWF (runLoop results store infos).1 := by
  induction results generalizing store infos with
  | nil => exact h
  | cons r rest ih =>
      cases r with
      | ok msg now => exact ih _ _ (storeWF_ingest store infos msg now h)
      | wouldBlock => exact ih _ _ h
      | recvErr => exact h

theorem typeKeys_runLoop_mono (results : List RecvResult) (store : Json) (infos : Infos)
    (h : storeWF store) : typeKeys store ⊆ typeKeys (runLoop results store infos).1 := by
  induction results generalizing store infos with
  | nil => exact fun a ha => ha
  | cons r rest ih =>
      cases r with
      | ok msg now =>
          refine List.Subset.trans ?_ (ih _ _ (storeWF_ingest store infos msg now h))
          rcases typeKeys_ingest store infos msg now h with he | he
          · rw [he]; exact fun a ha => ha
          · rw [he]; exact fun a ha => List.mem_append_left _ ha
      | wouldBlock => exact ih _ _ h
      | recvErr => exact fun a ha => ha

/-- C9: no deletion and stable root namespace — the store starts as the
single root key `"mavlink"` mapping to an empty object; every state the
ingestion loop can reach from boot still has `"mavlink"` bound to an object;
the set of type keys under it never loses an element as the schedule
extends; and each single put either keeps the key list unchanged
(overwrite in place) or appends exactly the new type key. -/
theorem c9_no_deletion :
    MESSAGES = Json.obj [("mavlink", Json.obj [])] ∧
    (∀ results, storeWF (runLoop results MESSAGES []).1) ∧
    (∀ results more,
      typeKeys (runLoop results MESSAGES []).1 ⊆
        typeKeys (runLoop (results ++ more) MESSAGES []).1) ∧
    (∀ results msg now,
      typeKeys (ingestStep (runLoop results MESSAGES []).1
          (runLoop results MESSAGES []).2.1 msg now).1 =
        typeKeys (runLoop results MESSAGES []).1 ∨
      typeKeys (ingestStep (runLoop results MESSAGES []).1
          (runLoop results MESSAGES []).2.1 msg now).1 =
        typeKeys (runLoop results MESSAGES []).1 ++ [typeKey msg]) := by
  have hwf0 : storeWF MESSAGES := ⟨_, _, rfl, rfl⟩
  refine ⟨rfl, fun results => storeWF_runLoop results MESSAGES [] hwf0, ?_, ?_⟩
  · have key : ∀ results more store infos, storeWF store →
        typeKeys (runLoop results store infos).1 ⊆
          typeKeys (runLoop (results ++ more) store infos).1 := by
      intro results
      induction results with
      | nil =>
          intro more store infos h
          exact typeKeys_runLoop_mono more store infos h
      | cons r rest ih =>
          intro more store infos h
          cases r with
          | ok msg now =>
              simpa [runLoop] using
                ih more _ _ (storeWF_ingest store infos msg now h)
          | wouldBlock => simpa [runLoop] using ih more store infos h
          | recvErr => simp [runLoop]
    exact fun results more => key results more MESSAGES [] hwf0
  · exact fun results msg now =>
      typeKeys_ingest _ _ msg now (storeWF_runLoop results MESSAGES [] hwf0)

theorem html_list_content_indexData (store : Json) :
    html_list_content store =
      (indexData store).foldl
        (fun acc kv =>
          acc ++ " <li> <a href=\"mavlink/" ++ kv.1 ++ "\">mavlink/" ++ kv.1 ++
            "</a> (" ++ kv.2 ++ "Hz) </li>") "" := by
  rw [html_list_content, indexData, List.foldl_map]

/-- C8 counterexample: on the spec's own example store the response for the
bare root path `/` (route table line 127: `/` is served by `root_page`) is
the HTML index page, not the serialized store tree — and even the path
resolver itself maps `/` to not-found rather than to the full tree. -/
theorem c8_root_counterexample :
    root_page "mavlink2rest" "0.0.0" "2020-01-01" "author" exampleStore ≠
      Json.render exampleStore ∧
    exampleStore.pointer "/" = none := by
  exact ⟨by decide, rfl⟩

/-- C8 (amended): the bare root path `/` is served by `root_page`, whose
response is derived only from the list of type keys and their two-decimal
frequencies — two stores with the same key/frequency index render the same
page regardless of any payload differences, so `/` returns an HTML index of
the store, not the full stored tree (the full per-type data is under
`/mavlink`). -/
theorem c8_root_page_index_only
    (pkg_name semver build_date authors : String) (s1 s2 : Json)
    (h : indexData s1 = indexData s2) :
    root_page pkg_name semver build_date authors s1 =
      root_page pkg_name semver build_date authors s2 := by
  unfold root_page
  rw [html_list_content_indexData s1, html_list_content_indexData s2, h]

theorem c8_root_page_index_only_witness :
    indexData c8store1 = indexData c8store2 ∧
    root_page "mavlink2rest" "0.0.0" "2020-01-01" "author" c8store1 =
      root_page "mavlink2rest" "0.0.0" "2020-01-01" "author" c8store2 :=
  ⟨by decide,
   c8_root_page_index_only "mavlink2rest" "0.0.0" "2020-01-01" "author"
     c8store1 c8store2 (by decide)⟩

theorem lastPutFor_append_self (hist : List (String × Json × MessageInformation))
    (msg_type : String) (p : Json) (mi : MessageInformation) :
    lastPutFor (hist ++ [(msg_type, p, mi)]) msg_type = some (p, mi) := by
  induction hist with
  | nil => simp [lastPutFor]
  | cons x rest ih =>
      obtain ⟨k, q, n⟩ := x
      rw [List.cons_append]
      simp only [lastPutFor, ih]

theorem lastPutFor_append_ne (hist : List (String × Json × MessageInformation))
    (msg_type other : String) (p : Json) (mi : MessageInformation)
    (h : msg_type ≠ other) :
    lastPutFor (hist ++ [(other, p, mi)]) msg_type = lastPutFor hist msg_type := by
  have hne : ¬ other = msg_type := fun hh => h hh.symm
  induction hist with
  | nil => simp [lastPutFor, hne]
  | cons x rest ih =>
      obtain ⟨k, q, n⟩ := x
      rw [List.cons_append]
      simp only [lastPutFor, ih]

theorem entryGood_append (hist : List (String × Json × MessageInformation))
    (msg_type other : String) (p : Json) (mi : MessageInformation) (e : Json)
    (h : msg_type ≠ other) (hg : entryGood hist msg_type e) :
    entryGood (hist ++ [(other, p, mi)]) msg_type e := by
  obtain ⟨p0, mi0, hl, he⟩ := hg
  exact ⟨p0, mi0, by rw [lastPutFor_append_ne _ _ _ _ _ h, hl], he⟩

theorem step_inv (s s2 : Sys) (hs : Step s s2) (hi : SysInv s) : SysInv s2 := by
  cases hs with
  | acquire mfs t h =>
      have hi2 : storeMatches s.store s.history := by
        unfold SysInv at hi; rw [h] at hi; exact hi
      show storeMatches s.store s.history
      exact hi2
  | writePayload mfs t h =>
      have hi2 : storeMatches s.store s.history := by
        unfold SysInv at hi; rw [h] at hi; exact hi
      obtain ⟨sfs, m, hst, hlk, hent⟩ := hi2
      show midMatches (storeSetPayload s.store (typeKey (.obj mfs)) (.obj mfs))
        s.history mfs
      rw [hst]
      simp only [storeSetPayload, Json.idx, hlk, Option.getD_some, Json.setK, midMatches]
      refine ⟨_, _, rfl, lookupA_setA_self _ _ _, lookupA_setA_self _ _ _, ?_⟩
      intro t2 e hne hl2
      rw [lookupA_setA_ne _ _ _ _ hne] at hl2
      exact hent t2 e hl2
  | writeMI mfs t h =>
      have hi2 : midMatches s.store s.history mfs := by
        unfold SysInv at hi; rw [h] at hi; exact hi
      obtain ⟨sfs, m, hst, hlk, hpend, hent⟩ := hi2
      show storeMatches
        (storeSetMI s.store (typeKey (.obj mfs))
          (miToJson (miAfter s.infos (typeKey (.obj mfs)) t)))
        (s.history ++
          [(typeKey (.obj mfs), .obj mfs, miAfter s.infos (typeKey (.obj mfs)) t)])
      rw [hst]
      simp only [storeSetMI, Json.idx, hlk, Option.getD_some, hpend, Json.setK, storeMatches]
      refine ⟨_, _, rfl, lookupA_setA_self _ _ _, ?_⟩
      intro t2 e hl2
      by_cases hT : t2 = typeKey (Json.obj mfs)
      · subst hT
        rw [lookupA_setA_self] at hl2
        obtain rfl : _ = e := Option.some_inj.mp hl2
        exact ⟨Json.obj mfs, miAfter s.infos (typeKey (Json.obj mfs)) t,
          lastPutFor_append_self _ _ _ _, rfl⟩
      · rw [lookupA_setA_ne _ _ _ _ hT] at hl2
        exact entryGood_append _ _ _ _ _ _ hT (hent t2 e hT hl2)
  | release h =>
      have hi2 : storeMatches s.store s.history := by
        unfold SysInv at hi; rw [h] at hi; exact hi
      show storeMatches s.store s.history
      exact hi2

theorem reach_inv (s : Sys) (h : Reach s) : SysInv s := by
  induction h with
  | init =>
      show storeMatches MESSAGES []
      refine ⟨_, _, rfl, rfl, ?_⟩
      intro t e hl
      simp [lookupA] at hl
  | step s s2 hr hs ih => exact step_inv s s2 hs ih

/-- C3: no torn reads — in the interleaving semantics where the ingestion
writer performs its two store writes inside one lock acquisition and readers
clone the store only while the lock is free, every readable state's per-type
entry is exactly the payload of the last completed put for that type with
that same put's frequency block embedded: a reader can never observe a new
payload with an old frequency block or vice versa. -/
theorem c3_no_torn_reads (s : Sys) (hr : Reach s) (hidle : s.phase = .idle)
    (msg_type : String) (e : Json) (he : entryAt s.store msg_type = some e) :
    ∃ p mi, lastPutFor s.history msg_type = some (p, mi) ∧
      e = p.setK "message_information" (miToJson mi) := by
  have hi := reach_inv s hr
  have hm : storeMatches s.store s.history := by
    unfold SysInv at hi; rw [hidle] at hi; exact hi
  obtain ⟨sfs, m, hst, hlk, hent⟩ := hm
  rw [hst] at he
  simp only [entryAt, Json.idx, hlk, Option.getD_some] at he
  exact hent msg_type e he

theorem c3_no_torn_reads_witness :
    ∃ p mi, lastPutFor witSys4.history "HEARTBEAT" = some (p, mi) ∧
      (Json.obj witMsg).setK "message_information" (miToJson (miAfter [] "HEARTBEAT" 0)) =
        p.setK "message_information" (miToJson mi) :=
  c3_no_torn_reads witSys4
    (Reach.step _ _
      (Reach.step _ _
        (Reach.step _ _
          (Reach.step _ _ Reach.init (Step.acquire initSys witMsg 0 rfl))
          (Step.writePayload witSys1 witMsg 0 rfl))
        (Step.writeMI witSys2 witMsg 0 rfl))
      (Step.release witSys3 rfl))
    rfl "HEARTBEAT"
    ((Json.obj witMsg).setK "message_information" (miToJson (miAfter [] "HEARTBEAT" 0)))
    rfl
